import Mathlib

/-!
Verification development for the pigpio type-declaration package
(src/types/pigpio/index.d.ts) and the waveform-subsystem design that its
declarations imply.  The repository contains only an API declaration
surface; the behavioural parts of the waveform subsystem (pulse buffer,
compiler, registry, transmission scheduler) are therefore modelled from
the accompanying design specification, while the pulse record shape and
the declared signatures (`pulses`, `waveTxSend`, `waveChain`, the
`waveGet*` query family) are translated directly from the declaration
file.
-/

namespace Pigpio

/-- Translated from src/types/pigpio/index.d.ts lines 507-511: the
`pulses` interface accepted by `waveAddGeneric`.  Each pulse carries a
single GPIO number to turn on (`gpioOn`), a single GPIO number to turn
off (`gpioOff`), and a pulse length in microseconds (`usDelay`). -/
structure pulses where
  gpioOn : Nat
  gpioOff : Nat
  usDelay : Nat
deriving DecidableEq, Repr

/-- Modelled from the spec: the hardware-schedulable "control block"
unit produced by the Waveform Compiler (spec sections 2 and 4.2; the
hardware primitive is `applyPulse(mask_on, mask_off)` per section 6).
The compiler itself is not in src/, only declared. -/
structure ControlBlock where
  maskOn : Nat
  maskOff : Nat
  delayMicros : Nat
deriving DecidableEq, Repr

/-- Modelled from the spec: deterministic compilation of a pulse
sequence into a block sequence (spec section 4.2); each pulse yields the
block that asserts its on-GPIO mask bit, clears its off-GPIO mask bit
and holds for its delay.  The compiler implementation is absent from
src/. -/
def compileBlocks (ps : List pulses) : List ControlBlock :=
  ps.map (fun p => ⟨2 ^ p.gpioOn, 2 ^ p.gpioOff, p.usDelay⟩)

/-- Total duration in microseconds of a pulse sequence. -/
def pulsesDuration (ps : List pulses) : Nat :=
  (ps.map pulses.usDelay).sum

/-- Modelled from the spec: a registered waveform (spec section 3):
compiled block sequence plus its derived metrics (duration, pulse
count, DMA control-block count). -/
structure Waveform where
  blocks : List ControlBlock
  micros : Nat
  numPulses : Nat
  cbs : Nat
deriving DecidableEq, Repr

/-- Translated from src/types/pigpio/index.d.ts lines 539-557: the four
transmission modes accepted by `waveTxSend`. -/
inductive WaveMode where
  | oneShot
  | repeatCycle
  | oneShotSync
  | repeatSync
deriving DecidableEq, Repr

/-- Whether a mode is one of the SYNC variants. -/
def WaveMode.isSync : WaveMode → Bool
  | .oneShotSync => true
  | .repeatSync => true
  | _ => false

/-- Whether a mode cycles repeatedly. -/
def WaveMode.cycles : WaveMode → Bool
  | .repeatCycle => true
  | .repeatSync => true
  | _ => false

/-- Modelled from the spec: the scheduler's record of one armed
transmission (spec section 4.4): the waveform id, its mode, its full
cycle length in microseconds, and the microseconds remaining in the
current cycle.  No scheduler exists in src/. -/
structure TxJob where
  id : Nat
  mode : WaveMode
  cycleMicros : Nat
  remaining : Nat
deriving DecidableEq, Repr

/-- Modelled from the spec: transmission state (spec sections 3
and 4.4): at most one active waveform, and at most one logically queued
sync-mode request waiting for the current cycle to complete. -/
structure TxState where
  active : Option TxJob
  pending : Option TxJob
deriving DecidableEq, Repr

/-- Modelled from the spec: the error taxonomy of spec section 7.  Only
declared behaviour exists in src/. -/
inductive Err where
  | InvalidGpioError
  | CapacityExceededError
  | NotFoundError
  | InUseError
  | InvalidChainError
deriving DecidableEq, Repr

/-- Modelled from the spec: the process-wide waveform-subsystem context
(spec sections 3 and 9): the hardware capacity limits (queryable via
`waveGetMax*`), the pulse buffer, the waveform registry, the three
high-water marks, and the transmission state.  None of this state is
implemented in src/. -/
structure WaveState where
  maxMicros : Nat
  maxPulses : Nat
  maxCbs : Nat
  buffer : List pulses
  registry : List (Nat × Waveform)
  highMicros : Nat
  highPulses : Nat
  highCbs : Nat
  tx : TxState
deriving DecidableEq, Repr

/-- Ids of the currently-registered (non-deleted) waveforms. -/
def registeredIds (s : WaveState) : List Nat :=
  s.registry.map Prod.fst

/-- Modelled from the spec: a fresh id for a newly compiled waveform
(spec section 4.2 "assigns a fresh unique id"): one more than the
largest currently-registered id, hence distinct from every registered
id. -/
def freshId (ids : List Nat) : Nat :=
  ids.foldr max 0 + 1

/-- Lookup of a registered waveform by id (spec section 4.3 `get`). -/
def lookupWave (s : WaveState) (waveId : Nat) : Option Waveform :=
  (s.registry.find? (fun e => e.1 == waveId)).map Prod.snd

/-- Translated from src/types/pigpio/index.d.ts line 601. -/
def waveGetMaxMicros (s : WaveState) : Nat := s.maxMicros

/-- Translated from src/types/pigpio/index.d.ts line 616. -/
def waveGetMaxPulses (s : WaveState) : Nat := s.maxPulses

/-- Translated from src/types/pigpio/index.d.ts line 631. -/
def waveGetMaxCbs (s : WaveState) : Nat := s.maxCbs

/-- Translated from src/types/pigpio/index.d.ts line 596: length in
microseconds of the longest waveform created since initialisation. -/
def waveGetHighMicros (s : WaveState) : Nat := s.highMicros

/-- Translated from src/types/pigpio/index.d.ts line 611. -/
def waveGetHighPulses (s : WaveState) : Nat := s.highPulses

/-- Translated from src/types/pigpio/index.d.ts line 626. -/
def waveGetHighCbs (s : WaveState) : Nat := s.highCbs

/-- Translated from src/types/pigpio/index.d.ts line 576: the currently
transmitting wave id (none when idle). -/
def waveTxAt (s : WaveState) : Option Nat :=
  s.tx.active.map TxJob.id

/-- Translated from src/types/pigpio/index.d.ts line 581. -/
def waveTxBusy (s : WaveState) : Nat :=
  if s.tx.active.isSome then 1 else 0

/-- Largest user GPIO number admitted by the pulse-buffer universe
(spec section 4.1; GPIOs 0..31 per the Notifier declaration). -/
def maxUserGpio : Nat := 31

/-- Modelled from the spec: `waveAddGeneric` (spec section 4.1,
declared at src/types/pigpio/index.d.ts lines 493-505): appends the
pulses in order and returns the new total number of pulses in the
current waveform; fails with `InvalidGpioError` when a pulse addresses
an unsupported GPIO. -/
def waveAddGeneric (s : WaveState) (ps : List pulses) :
    Except Err (Nat × WaveState) :=
  if ps.all (fun p => p.gpioOn ≤ maxUserGpio && p.gpioOff ≤ maxUserGpio) then
    Except.ok ((s.buffer ++ ps).length, { s with buffer := s.buffer ++ ps })
  else
    Except.error Err.InvalidGpioError

/-- Translated from src/types/pigpio/index.d.ts lines 487-491:
`waveAddNew` starts a new empty waveform (empties the pulse buffer). -/
def waveAddNew (s : WaveState) : WaveState :=
  { s with buffer := [] }

/-- Translated from src/types/pigpio/index.d.ts lines 482-485:
`waveClear` clears all waveforms and all data added by `waveAdd*`. -/
def waveClear (s : WaveState) : WaveState :=
  { s with buffer := [], registry := [] }

/-- Modelled from the spec: `waveCreate` (spec section 4.2, declared at
src/types/pigpio/index.d.ts lines 513-518): compiles the pulse buffer,
fails with `CapacityExceededError` when the compiled duration, pulse
count or block count exceeds the respective hardware maximum (leaving
the state untouched); otherwise registers the waveform under a fresh
id, clears the buffer, and raises the three high-water marks to at
least the new waveform's metrics. -/
def waveCreate (s : WaveState) : Except Err Nat × WaveState :=
  let d := pulsesDuration s.buffer
  let np := s.buffer.length
  let blocks := compileBlocks s.buffer
  let nb := blocks.length
  if d ≤ s.maxMicros ∧ np ≤ s.maxPulses ∧ nb ≤ s.maxCbs then
    let waveId := freshId (registeredIds s)
    (Except.ok waveId,
      { s with
        buffer := []
        registry := (waveId, ⟨blocks, d, np, nb⟩) :: s.registry
        highMicros := max s.highMicros d
        highPulses := max s.highPulses np
        highCbs := max s.highCbs nb })
  else
    (Except.error Err.CapacityExceededError, s)

/-- Modelled from the spec: `waveDelete` (spec section 4.3, declared at
src/types/pigpio/index.d.ts lines 520-524): fails with `NotFoundError`
for an unregistered id and with `InUseError` for the currently
transmitting waveform; otherwise removes the registry entry, leaving
the high-water marks untouched. -/
def waveDelete (s : WaveState) (waveId : Nat) : Except Err WaveState :=
  if (registeredIds s).contains waveId then
    if s.tx.active.any (fun j => j.id == waveId) then
      Except.error Err.InUseError
    else
      Except.ok { s with registry := s.registry.filter (fun e => e.1 != waveId) }
  else
    Except.error Err.NotFoundError

/-- Modelled from the spec: `waveTxSend` (spec section 4.4, declared at
src/types/pigpio/index.d.ts lines 526-533 with return type `void`):
fails with `NotFoundError` for an unregistered id; in a SYNC mode while
another waveform is transmitting, the request queues logically; in
every other situation the new waveform is armed immediately.  The
declared return type is `void`, so the success payload is `Unit`. -/
def waveTxSend (s : WaveState) (waveId : Nat) (mode : WaveMode) :
    Except Err (Unit × WaveState) :=
  match lookupWave s waveId with
  | none => Except.error Err.NotFoundError
  | some w =>
    if mode.isSync && s.tx.active.isSome then
      Except.ok ((),
        { s with tx := { s.tx with pending := some ⟨waveId, mode, w.micros, w.micros⟩ } })
    else
      Except.ok ((),
        { s with tx := { s.tx with active := some ⟨waveId, mode, w.micros, w.micros⟩ } })

/-- Translated from src/types/pigpio/index.d.ts lines 583-586:
`waveTxStop` aborts the current waveform. -/
def waveTxStop (s : WaveState) : WaveState :=
  { s with tx := ⟨none, none⟩ }

/-- Modelled from the spec: one microsecond of the hardware timing
peripheral driving the Transmission Scheduler (spec sections 4.4
and 5).  While more than one microsecond remains in the current cycle
the active job merely counts down; at a cycle boundary a queued sync
request takes over, else a repeating mode restarts its cycle and a
one-shot mode goes idle.  The scheduler is not in src/. -/
def tick (s : WaveState) : WaveState :=
  match s.tx.active with
  | none => s
  | some j =>
    if 1 < j.remaining then
      { s with tx := { s.tx with active := some { j with remaining := j.remaining - 1 } } }
    else
      match s.tx.pending with
      | some p =>
        { s with tx := ⟨some { p with remaining := p.cycleMicros }, none⟩ }
      | none =>
        if j.mode.cycles then
          { s with tx := { s.tx with active := some { j with remaining := j.cycleMicros } } }
        else
          { s with tx := { s.tx with active := none } }

/-- Translated from src/types/pigpio/index.d.ts lines 559-571: the
decoded form of one `waveChain` entry — a plain wave id or one of the
four control codes (255 0 loop start, 255 1 x y loop repeat, 255 2 x y
delay, 255 3 loop forever). -/
inductive ChainEntry where
  | waveId (id : Nat)
  | loopStart
  | loopRepeat (count : Nat)
  | delayEntry (micros : Nat)
  | loopForever
deriving DecidableEq, Repr

/-- Translated from src/types/pigpio/index.d.ts lines 559-571: decoding
of the raw `waveChain` number array.  Byte 255 introduces a control
code; sub-codes 1 (loop repeat) and 2 (delay) carry a two-byte
little-endian operand decoded as `x + y * 256`; every other number is a
plain wave id.  A 255 followed by anything else is malformed. -/
def parseChain : List Nat → Option (List ChainEntry)
  | [] => some []
  | n :: rest =>
    if n ≠ 255 then
      (parseChain rest).map (fun es => ChainEntry.waveId n :: es)
    else
      match rest with
      | [] => none
      | c :: r =>
        if c = 0 then
          (parseChain r).map (fun es => ChainEntry.loopStart :: es)
        else if c = 3 then
          (parseChain r).map (fun es => ChainEntry.loopForever :: es)
        else if c = 1 then
          match r with
          | x :: y :: r2 =>
            (parseChain r2).map (fun es => ChainEntry.loopRepeat (x + y * 256) :: es)
          | _ => none
        else if c = 2 then
          match r with
          | x :: y :: r2 =>
            (parseChain r2).map (fun es => ChainEntry.delayEntry (x + y * 256) :: es)
          | _ => none
        else
          none

/-- Modelled from the spec: chain validation (spec section 4.4, chain
declared at src/types/pigpio/index.d.ts lines 559-571), with `d` open
loop starts so far: a loop repeat must close an unclosed start, loop
forever must be the final entry, and all starts must be closed at the
end.  No validator exists in src/. -/
def validEntries : List ChainEntry → Nat → Bool
  | [], d => d == 0
  | ChainEntry.loopStart :: rest, d => validEntries rest (d + 1)
  | ChainEntry.loopRepeat _ :: rest, d => decide (0 < d) && validEntries rest (d - 1)
  | ChainEntry.delayEntry _ :: rest, d => validEntries rest d
  | ChainEntry.waveId _ :: rest, d => validEntries rest d
  | ChainEntry.loopForever :: rest, d => rest.isEmpty && d == 0

/-- Modelled from the spec: `waveChain` validates the entry sequence
before any transmission starts (spec section 4.4, declared at
src/types/pigpio/index.d.ts lines 559-571); a malformed or unbalanced
sequence fails with `InvalidChainError` and leaves the state
untouched.  Execution of an accepted chain is outside this model. -/
def waveChain (s : WaveState) (chain : List Nat) : Except Err WaveState :=
  match parseChain chain with
  | none => Except.error Err.InvalidChainError
  | some es =>
    if validEntries es 0 then Except.ok s
    else Except.error Err.InvalidChainError

/-- Modelled from the spec: the operations of the waveform subsystem
(spec sections 4.1-4.4), used to state state-invariants quantified over
every operation.  `tickOp` is one microsecond of the hardware timing
peripheral. -/
inductive Op where
  | addGeneric (ps : List pulses)
  | addNew
  | clearOp
  | create
  | deleteOp (waveId : Nat)
  | chainOp (xs : List Nat)
  | txSend (waveId : Nat) (mode : WaveMode)
  | txStop
  | tickOp
deriving DecidableEq, Repr

/-- Modelled from the spec: the state reached after one operation,
where a failed operation leaves the state unchanged (spec section 7:
all errors are reported synchronously and none are silently
recovered). -/
def step (s : WaveState) : Op → WaveState
  | Op.addGeneric ps =>
    match waveAddGeneric s ps with
    | Except.ok r => r.2
    | Except.error _ => s
  | Op.addNew => waveAddNew s
  | Op.clearOp => waveClear s
  | Op.create => (waveCreate s).2
  | Op.deleteOp waveId =>
    match waveDelete s waveId with
    | Except.ok s' => s'
    | Except.error _ => s
  | Op.chainOp xs =>
    match waveChain s xs with
    | Except.ok s' => s'
    | Except.error _ => s
  | Op.txSend waveId mode =>
    match waveTxSend s waveId mode with
    | Except.ok r => r.2
    | Except.error _ => s
  | Op.txStop => waveTxStop s
  | Op.tickOp => tick s

/-- Number of loop-start entries in a chain-entry list. -/
def countStarts : List ChainEntry → Nat
  | [] => 0
  | ChainEntry.loopStart :: es => countStarts es + 1
  | _ :: es => countStarts es

/-- Number of loop-repeat entries in a chain-entry list. -/
def countRepeats : List ChainEntry → Nat
  | [] => 0
  | ChainEntry.loopRepeat _ :: es => countRepeats es + 1
  | _ :: es => countRepeats es

/-- Declarative balance condition for nearest-match loop pairing: no
initial segment closes more loops than it has opened, and every opened
loop is closed by the end. -/
def BalancedNearest (es : List ChainEntry) : Prop :=
  (∀ n, countRepeats (es.take n) ≤ countStarts (es.take n)) ∧
    countRepeats es = countStarts es

/-- Declarative condition that a loop-forever entry can only be the
final entry of the chain. -/
def ForeverFinal (es : List ChainEntry) : Prop :=
  ∀ i (h : i < es.length),
    es.get ⟨i, h⟩ = ChainEntry.loopForever → i + 1 = es.length

/-- A concrete context with one pending pulse and generous limits, used
to exercise the operations on explicit inputs. -/
def baseState : WaveState :=
  ⟨100, 10, 10, [⟨1, 2, 5⟩], [], 0, 0, 0, ⟨none, none⟩⟩

/-- A concrete context whose pending pulse exceeds the configured
maximum microseconds. -/
def overState : WaveState :=
  ⟨3, 10, 10, [⟨1, 2, 5⟩], [], 0, 0, 0, ⟨none, none⟩⟩

/-- The context reached from `baseState` by compiling and then deleting
the resulting waveform: the high-water marks keep the compiled
waveform's metrics. -/
def cdFinal : WaveState :=
  ⟨100, 10, 10, [], [], 5, 1, 1, ⟨none, none⟩⟩

/-- A concrete context whose high-water marks already dominate the
pending pulse's metrics. -/
def richState : WaveState :=
  ⟨100, 10, 10, [⟨1, 2, 5⟩], [], 10, 6, 6, ⟨none, none⟩⟩

/-- The context reached from `richState` by compiling the pending
pulse. -/
def richAfter : WaveState :=
  ⟨100, 10, 10, [], [(1, ⟨[⟨2, 4, 5⟩], 5, 1, 1⟩)], 10, 6, 6, ⟨none, none⟩⟩

/-- The context reached from `richAfter` by deleting waveform 1. -/
def richFinal : WaveState :=
  ⟨100, 10, 10, [], [], 10, 6, 6, ⟨none, none⟩⟩

/-- A second context sharing `baseState`'s pulse buffer but differing
elsewhere, used to exercise determinism on explicit inputs. -/
def otherState : WaveState :=
  ⟨80, 9, 9, [⟨1, 2, 5⟩], [(3, ⟨[], 0, 0, 0⟩)], 7, 2, 2, ⟨none, none⟩⟩

/-- A concrete context in which waveform 0 is repeating with two
microseconds left in its current cycle and waveform 1 is registered,
used to exercise the sync-mode deferral on explicit inputs. -/
def syncState : WaveState :=
  ⟨100, 10, 10, [], [(0, ⟨[], 4, 0, 0⟩), (1, ⟨[⟨2, 4, 3⟩], 3, 1, 1⟩)], 5, 1, 1,
    ⟨some ⟨0, WaveMode.repeatCycle, 4, 2⟩, none⟩⟩

/-- The context reached from `syncState` by a `repeatSync` send of
waveform 1: the request is queued and waveform 0 stays active. -/
def syncQueued : WaveState :=
  ⟨100, 10, 10, [], [(0, ⟨[], 4, 0, 0⟩), (1, ⟨[⟨2, 4, 3⟩], 3, 1, 1⟩)], 5, 1, 1,
    ⟨some ⟨0, WaveMode.repeatCycle, 4, 2⟩, some ⟨1, WaveMode.repeatSync, 3, 3⟩⟩⟩

lemma le_foldr_max {a : Nat} {l : List Nat} (h : a ∈ l) : a ≤ l.foldr max 0 := by
  induction l with
  | nil => cases h
  | cons b l ih =>
    rcases List.mem_cons.mp h with rfl | h'
    · exact le_max_left _ _
    · exact le_trans (ih h') (le_max_right _ _)

lemma freshId_not_mem (ids : List Nat) : freshId ids ∉ ids := by
  intro h
  have := le_foldr_max h
  simp only [freshId] at this
  omega

lemma waveCreate_ok_inv {s : WaveState} {waveId : Nat} {t : WaveState}
    (h : waveCreate s = (Except.ok waveId, t)) :
    waveId = freshId (registeredIds s) ∧
    t = { s with
          buffer := []
          registry := (waveId, ⟨compileBlocks s.buffer, pulsesDuration s.buffer,
            s.buffer.length, (compileBlocks s.buffer).length⟩) :: s.registry
          highMicros := max s.highMicros (pulsesDuration s.buffer)
          highPulses := max s.highPulses s.buffer.length
          highCbs := max s.highCbs (compileBlocks s.buffer).length } ∧
    pulsesDuration s.buffer ≤ s.maxMicros ∧ s.buffer.length ≤ s.maxPulses ∧
    (compileBlocks s.buffer).length ≤ s.maxCbs := by
  simp only [waveCreate] at h
  split at h
  · rename_i hc
    simp only [Prod.mk.injEq, Except.ok.injEq] at h
    obtain ⟨rfl, rfl⟩ := h
    exact ⟨rfl, rfl, hc.1, hc.2.1, hc.2.2⟩
  · simp at h

lemma waveDelete_ok_inv {t : WaveState} {waveId : Nat} {u : WaveState}
    (h : waveDelete t waveId = Except.ok u) :
    u = { t with registry := t.registry.filter (fun e => e.1 != waveId) } := by
  simp only [waveDelete] at h
  split at h
  · split at h
    · simp at h
    · simp only [Except.ok.injEq] at h
      exact h.symm
  · simp at h

/-- C1: a compile whose duration, pulse count or block count exceeds
the respective hardware maximum fails with `CapacityExceededError` and
returns the state completely unchanged, so no waveform id is registered
and all three high-water marks are untouched. -/
theorem waveCreate_capacity_atomic :
    ∀ s : WaveState,
      (waveGetMaxMicros s < pulsesDuration s.buffer ∨
       waveGetMaxPulses s < s.buffer.length ∨
       waveGetMaxCbs s < (compileBlocks s.buffer).length) →
      waveCreate s = (Except.error Err.CapacityExceededError, s) := by
  intro s h
  simp only [waveGetMaxMicros, waveGetMaxPulses, waveGetMaxCbs] at h
  simp only [waveCreate]
  split
  · rename_i hc
    omega
  · rfl

/-- Witness for C1: `overState` exceeds the maximum microseconds and
its compile fails atomically. -/
theorem waveCreate_capacity_atomic_witness :
    (waveGetMaxMicros overState < pulsesDuration overState.buffer ∨
     waveGetMaxPulses overState < overState.buffer.length ∨
     waveGetMaxCbs overState < (compileBlocks overState.buffer).length) ∧
    waveCreate overState = (Except.error Err.CapacityExceededError, overState) :=
  ⟨by decide, waveCreate_capacity_atomic overState (by decide)⟩

/-- C7: every successful compile returns an id distinct from every
currently-registered waveform id (so an id can come back only once its
waveform has been deleted), registers the new waveform under that id,
and clears the pulse buffer.  Ids are natural numbers, hence
non-negative. -/
theorem waveCreate_fresh_id :
    ∀ (s : WaveState) (waveId : Nat) (t : WaveState),
      waveCreate s = (Except.ok waveId, t) →
      waveId ∉ registeredIds s ∧ t.buffer = [] ∧
      registeredIds t = waveId :: registeredIds s := by
  intro s waveId t h
  obtain ⟨hid, ht, -⟩ := waveCreate_ok_inv h
  subst ht
  refine ⟨?_, rfl, ?_⟩
  · rw [hid]; exact freshId_not_mem _
  · simp [registeredIds]

/-- Witness for C7: compiling `baseState` yields the fresh id 1 with a
cleared buffer. -/
theorem waveCreate_fresh_id_witness :
    waveCreate baseState = (Except.ok 1, (waveCreate baseState).2) ∧
    (1 ∉ registeredIds baseState ∧ (waveCreate baseState).2.buffer = [] ∧
     registeredIds (waveCreate baseState).2 = 1 :: registeredIds baseState) :=
  ⟨rfl, waveCreate_fresh_id baseState 1 (waveCreate baseState).2 rfl⟩

/-- C3: compilation is a deterministic function of the pulse sequence:
two successful compiles from identical pulse buffers register waveforms
with identical block sequences and identical duration, pulse-count and
block-count metrics (only the assigned ids may differ). -/
theorem waveCreate_deterministic :
    ∀ (s1 s2 : WaveState) (id1 id2 : Nat) (t1 t2 : WaveState),
      s1.buffer = s2.buffer →
      waveCreate s1 = (Except.ok id1, t1) →
      waveCreate s2 = (Except.ok id2, t2) →
      lookupWave t1 id1 = lookupWave t2 id2 ∧
      lookupWave t1 id1 =
        some ⟨compileBlocks s1.buffer, pulsesDuration s1.buffer,
          s1.buffer.length, (compileBlocks s1.buffer).length⟩ := by
  intro s1 s2 id1 id2 t1 t2 hbuf h1 h2
  obtain ⟨-, ht1, -⟩ := waveCreate_ok_inv h1
  obtain ⟨-, ht2, -⟩ := waveCreate_ok_inv h2
  subst ht1 ht2
  simp only [lookupWave, List.find?]
  simp [hbuf]

/-- Witness for C3: `baseState` and `otherState` share a pulse buffer;
their compiles register equal waveforms. -/
theorem waveCreate_deterministic_witness :
    baseState.buffer = otherState.buffer ∧
    (lookupWave (waveCreate baseState).2 1 = lookupWave (waveCreate otherState).2 4 ∧
     lookupWave (waveCreate baseState).2 1 =
       some ⟨compileBlocks baseState.buffer, pulsesDuration baseState.buffer,
         baseState.buffer.length, (compileBlocks baseState.buffer).length⟩) :=
  ⟨by decide,
    waveCreate_deterministic baseState otherState 1 4
      (waveCreate baseState).2 (waveCreate otherState).2
      (by decide) rfl rfl⟩

lemma waveAddGeneric_ok_inv {s : WaveState} {ps : List pulses} {r : Nat × WaveState}
    (h : waveAddGeneric s ps = Except.ok r) :
    r = ((s.buffer ++ ps).length, { s with buffer := s.buffer ++ ps }) := by
  simp only [waveAddGeneric] at h
  split at h
  · simp only [Except.ok.injEq] at h
    exact h.symm
  · simp at h

lemma waveChain_ok_inv {s : WaveState} {chain : List Nat} {s' : WaveState}
    (h : waveChain s chain = Except.ok s') : s' = s := by
  simp only [waveChain] at h
  split at h
  · simp at h
  · split at h
    · simp only [Except.ok.injEq] at h
      exact h.symm
    · simp at h

lemma waveTxSend_ok_inv {s : WaveState} {waveId : Nat} {mode : WaveMode}
    {r : Unit × WaveState} (h : waveTxSend s waveId mode = Except.ok r) :
    r.2.buffer = s.buffer ∧ r.2.registry = s.registry ∧
    r.2.highMicros = s.highMicros ∧ r.2.highPulses = s.highPulses ∧
    r.2.highCbs = s.highCbs := by
  simp only [waveTxSend] at h
  split at h
  · simp at h
  · split at h <;>
      (simp only [Except.ok.injEq] at h; subst h; exact ⟨rfl, rfl, rfl, rfl, rfl⟩)

lemma tick_marks (s : WaveState) :
    (tick s).highMicros = s.highMicros ∧
    (tick s).highPulses = s.highPulses ∧
    (tick s).highCbs = s.highCbs := by
  unfold tick
  (repeat' split) <;> exact ⟨rfl, rfl, rfl⟩

lemma step_marks_le (s : WaveState) (op : Op) :
    s.highMicros ≤ (step s op).highMicros ∧
    s.highPulses ≤ (step s op).highPulses ∧
    s.highCbs ≤ (step s op).highCbs := by
  cases op with
  | addGeneric ps =>
    simp only [step]
    split
    · rename_i r h
      rw [waveAddGeneric_ok_inv h]
      exact ⟨le_refl _, le_refl _, le_refl _⟩
    · exact ⟨le_refl _, le_refl _, le_refl _⟩
  | addNew => exact ⟨le_refl _, le_refl _, le_refl _⟩
  | clearOp => exact ⟨le_refl _, le_refl _, le_refl _⟩
  | create =>
    simp only [step, waveCreate]
    split
    · exact ⟨le_max_left _ _, le_max_left _ _, le_max_left _ _⟩
    · exact ⟨le_refl _, le_refl _, le_refl _⟩
  | deleteOp waveId =>
    simp only [step]
    split
    · rename_i s' h
      rw [waveDelete_ok_inv h]
      exact ⟨le_refl _, le_refl _, le_refl _⟩
    · exact ⟨le_refl _, le_refl _, le_refl _⟩
  | chainOp xs =>
    simp only [step]
    split
    · rename_i s' h
      rw [waveChain_ok_inv h]
      exact ⟨le_refl _, le_refl _, le_refl _⟩
    · exact ⟨le_refl _, le_refl _, le_refl _⟩
  | txSend waveId mode =>
    simp only [step]
    split
    · rename_i r h
      obtain ⟨-, -, h1, h2, h3⟩ := waveTxSend_ok_inv h
      rw [h1, h2, h3]
      exact ⟨le_refl _, le_refl _, le_refl _⟩
    · exact ⟨le_refl _, le_refl _, le_refl _⟩
  | txStop => exact ⟨le_refl _, le_refl _, le_refl _⟩
  | tickOp =>
    obtain ⟨h1, h2, h3⟩ := tick_marks s
    simp only [step, h1, h2, h3]
    exact ⟨le_refl _, le_refl _, le_refl _⟩

/-- C2: the three high-water marks reported by `waveGetHighMicros`,
`waveGetHighPulses` and `waveGetHighCbs` never decrease: every single
operation of the subsystem — including deleting a waveform — leaves
each mark at least as large as before, and hence so does every
operation sequence executed since initialisation. -/
theorem highWaterMarks_monotone :
    ∀ (s : WaveState) (op : Op),
      (waveGetHighMicros s ≤ waveGetHighMicros (step s op) ∧
       waveGetHighPulses s ≤ waveGetHighPulses (step s op) ∧
       waveGetHighCbs s ≤ waveGetHighCbs (step s op)) ∧
      ∀ ops : List Op,
        waveGetHighMicros s ≤ waveGetHighMicros (ops.foldl step s) ∧
        waveGetHighPulses s ≤ waveGetHighPulses (ops.foldl step s) ∧
        waveGetHighCbs s ≤ waveGetHighCbs (ops.foldl step s) := by
  have hseq : ∀ (ops : List Op) (s : WaveState),
      s.highMicros ≤ (ops.foldl step s).highMicros ∧
      s.highPulses ≤ (ops.foldl step s).highPulses ∧
      s.highCbs ≤ (ops.foldl step s).highCbs := by
    intro ops
    induction ops with
    | nil => intro s; exact ⟨le_refl _, le_refl _, le_refl _⟩
    | cons op ops ih =>
      intro s
      obtain ⟨h1, h2, h3⟩ := step_marks_le s op
      obtain ⟨g1, g2, g3⟩ := ih (step s op)
      exact ⟨le_trans h1 g1, le_trans h2 g2, le_trans h3 g3⟩
  intro s op
  exact ⟨step_marks_le s op, fun ops => hseq ops s⟩

/-- C9: every pulse accepted by `waveAddGeneric` is a record naming
exactly one GPIO number to turn on, exactly one GPIO number to turn
off, and one microsecond delay — there is no field through which a
single pulse could carry a multi-GPIO bit-mask on-set or off-set — and
the operation appends exactly these records to the pulse buffer. -/
theorem pulses_single_gpio :
    (∀ p : pulses,
      (∃! g : Nat, p.gpioOn = g) ∧ (∃! g : Nat, p.gpioOff = g) ∧
      (∃! d : Nat, p.usDelay = d) ∧
      p = pulses.mk p.gpioOn p.gpioOff p.usDelay) ∧
    ∀ (s : WaveState) (ps : List pulses) (r : Nat × WaveState),
      waveAddGeneric s ps = Except.ok r → r.2.buffer = s.buffer ++ ps := by
  constructor
  · intro p
    refine ⟨⟨p.gpioOn, rfl, ?_⟩, ⟨p.gpioOff, rfl, ?_⟩, ⟨p.usDelay, rfl, ?_⟩, rfl⟩ <;>
      exact fun y hy => hy.symm
  · intro s ps r h
    simp only [waveAddGeneric] at h
    split at h
    · simp only [Except.ok.injEq] at h
      subst h
      rfl
    · simp at h

/-- Witness for C9: adding the single pulse of `baseState`'s buffer
shape to the empty-buffer state appends exactly that record. -/
theorem pulses_single_gpio_witness :
    waveAddGeneric (waveAddNew baseState) [⟨1, 2, 5⟩] =
      Except.ok (1, { waveAddNew baseState with buffer := [⟨1, 2, 5⟩] }) ∧
    (waveAddGeneric (waveAddNew baseState) [⟨1, 2, 5⟩] =
        Except.ok (1, { waveAddNew baseState with buffer := [⟨1, 2, 5⟩] }) →
      ({ waveAddNew baseState with buffer := [⟨1, 2, 5⟩] } : WaveState).buffer =
        (waveAddNew baseState).buffer ++ [⟨1, 2, 5⟩]) :=
  ⟨rfl, fun h => pulses_single_gpio.2 (waveAddNew baseState) [⟨1, 2, 5⟩]
    (1, { waveAddNew baseState with buffer := [⟨1, 2, 5⟩] }) h⟩

/-- C10: `waveTxSend` is declared with return type `void` (even though
its doc comment speaks of returning the number of DMA control blocks),
so a successful call carries only the unit value: no control-block
count is observable from the operation's result. -/
theorem waveTxSend_returns_void :
    ∀ (s : WaveState) (waveId : Nat) (mode : WaveMode),
      waveTxSend s waveId mode = (waveTxSend s waveId mode).map (fun r => ((), r.2)) := by
  intro s waveId mode
  simp only [waveTxSend]
  split
  · rfl
  · split <;> rfl

/-- C8: in the `waveChain` control-code scheme, byte 255 followed by
sub-code 0 opens a loop, sub-code 1 with bytes x y repeats the loop
exactly `x + y * 256` times, sub-code 2 with bytes x y delays
`x + y * 256` microseconds, sub-code 3 loops forever, and every other
entry is a plain waveform id; with byte-sized x and y the little-endian
decoded operand is a 16-bit quantity. -/
theorem chainEncoding_littleEndian :
    (∀ (x y : Nat) (rest : List Nat),
        parseChain (255 :: 1 :: x :: y :: rest) =
          (parseChain rest).map (fun es => ChainEntry.loopRepeat (x + y * 256) :: es)) ∧
    (∀ (x y : Nat) (rest : List Nat),
        parseChain (255 :: 2 :: x :: y :: rest) =
          (parseChain rest).map (fun es => ChainEntry.delayEntry (x + y * 256) :: es)) ∧
    (∀ rest : List Nat,
        parseChain (255 :: 0 :: rest) =
          (parseChain rest).map (fun es => ChainEntry.loopStart :: es)) ∧
    (∀ rest : List Nat,
        parseChain (255 :: 3 :: rest) =
          (parseChain rest).map (fun es => ChainEntry.loopForever :: es)) ∧
    (∀ (n : Nat) (rest : List Nat), n ≠ 255 →
        parseChain (n :: rest) =
          (parseChain rest).map (fun es => ChainEntry.waveId n :: es)) ∧
    (∀ x y : Nat, x < 256 → y < 256 → x + y * 256 < 65536) := by
  refine ⟨?_, ?_, ?_, ?_, ?_, ?_⟩
  · intro x y rest; rw [parseChain.eq_def]; simp
  · intro x y rest; rw [parseChain.eq_def]; simp
  · intro rest; rw [parseChain.eq_def]; simp
  · intro rest; rw [parseChain.eq_def]; simp
  · intro n rest h; rw [parseChain.eq_def]; simp [h]
  · intro x y hx hy; omega

/-- Witness for C8: a plain entry 7 decodes as wave id 7, and the
byte pair (5, 1) decodes as 5 + 256 = 261 < 65536. -/
theorem chainEncoding_littleEndian_witness :
    ((7 : Nat) ≠ 255 ∧
      parseChain [7] = (parseChain []).map (fun es => ChainEntry.waveId 7 :: es)) ∧
    ((5 : Nat) < 256 ∧ (1 : Nat) < 256 ∧ (5 : Nat) + 1 * 256 < 65536) :=
  ⟨⟨by decide, chainEncoding_littleEndian.2.2.2.2.1 7 [] (by decide)⟩,
    ⟨by decide, by decide, chainEncoding_littleEndian.2.2.2.2.2 5 1 (by decide) (by decide)⟩⟩

lemma foreverFinal_nil : ForeverFinal [] := by
  intro i h
  simp at h

lemma foreverFinal_cons (e : ChainEntry) (es : List ChainEntry) :
    ForeverFinal (e :: es) ↔
      (e = ChainEntry.loopForever → es = []) ∧ ForeverFinal es := by
  constructor
  · intro h
    constructor
    · intro he
      have h0 := h 0 (by simp) (by simpa using he)
      simp only [List.length_cons] at h0
      exact List.eq_nil_of_length_eq_zero (by omega)
    · intro i hi hf
      have := h (i + 1) (by simpa using Nat.succ_lt_succ hi) (by simpa using hf)
      simpa using this
  · rintro ⟨h1, h2⟩ i hi hf
    cases i with
    | zero =>
      have he : e = ChainEntry.loopForever := by simpa using hf
      have := h1 he
      subst this
      simp
    | succ j =>
      have hj : j < es.length := by simpa using hi
      have := h2 j hj (by simpa using hf)
      simp only [List.length_cons]
      omega

lemma validEntries_iff (es : List ChainEntry) :
    ∀ d : Nat, validEntries es d = true ↔
      ((∀ n, countRepeats (es.take n) ≤ d + countStarts (es.take n)) ∧
       countRepeats es = d + countStarts es ∧ ForeverFinal es) := by
  induction es with
  | nil =>
    intro d
    simp [validEntries, countRepeats, countStarts, foreverFinal_nil]
    omega
  | cons e es ih =>
    intro d
    cases e with
    | loopStart =>
      rw [show validEntries (ChainEntry.loopStart :: es) d = validEntries es (d + 1)
            from rfl, ih (d + 1)]
      constructor
      · rintro ⟨h1, h2, h3⟩
        refine ⟨?_, ?_, ?_⟩
        · intro n
          cases n with
          | zero => simp [countRepeats, countStarts]
          | succ m =>
            have := h1 m
            simp only [List.take_succ_cons, countRepeats, countStarts] at this ⊢
            omega
        · simp only [countRepeats, countStarts]
          omega
        · rw [foreverFinal_cons]
          exact ⟨fun h => by simp at h, h3⟩
      · rintro ⟨h1, h2, h3⟩
        refine ⟨?_, ?_, ((foreverFinal_cons _ _).mp h3).2⟩
        · intro m
          have := h1 (m + 1)
          simp only [List.take_succ_cons, countRepeats, countStarts] at this
          omega
        · simp only [countRepeats, countStarts] at h2
          omega
    | loopRepeat k =>
      rw [show validEntries (ChainEntry.loopRepeat k :: es) d =
            (decide (0 < d) && validEntries es (d - 1)) from rfl]
      rw [Bool.and_eq_true, decide_eq_true_iff, ih (d - 1)]
      constructor
      · rintro ⟨hd, h1, h2, h3⟩
        refine ⟨?_, ?_, ?_⟩
        · intro n
          cases n with
          | zero => simp [countRepeats, countStarts]
          | succ m =>
            have := h1 m
            simp only [List.take_succ_cons, countRepeats, countStarts] at this ⊢
            omega
        · simp only [countRepeats, countStarts]
          omega
        · rw [foreverFinal_cons]
          exact ⟨fun h => by simp at h, h3⟩
      · rintro ⟨h1, h2, h3⟩
        have hd : 0 < d := by
          have := h1 1
          simp only [List.take_succ_cons, List.take_zero, countRepeats, countStarts] at this
          omega
        refine ⟨hd, ?_, ?_, ((foreverFinal_cons _ _).mp h3).2⟩
        · intro m
          have := h1 (m + 1)
          simp only [List.take_succ_cons, countRepeats, countStarts] at this
          omega
        · simp only [countRepeats, countStarts] at h2
          omega
    | delayEntry us =>
      rw [show validEntries (ChainEntry.delayEntry us :: es) d = validEntries es d
            from rfl, ih d]
      constructor
      · rintro ⟨h1, h2, h3⟩
        refine ⟨?_, ?_, ?_⟩
        · intro n
          cases n with
          | zero => simp [countRepeats, countStarts]
          | succ m =>
            have := h1 m
            simp only [List.take_succ_cons, countRepeats, countStarts] at this ⊢
            omega
        · simp only [countRepeats, countStarts]
          omega
        · rw [foreverFinal_cons]
          exact ⟨fun h => by simp at h, h3⟩
      · rintro ⟨h1, h2, h3⟩
        refine ⟨?_, ?_, ((foreverFinal_cons _ _).mp h3).2⟩
        · intro m
          have := h1 (m + 1)
          simp only [List.take_succ_cons, countRepeats, countStarts] at this
          omega
        · simp only [countRepeats, countStarts] at h2
          omega
    | waveId id =>
      rw [show validEntries (ChainEntry.waveId id :: es) d = validEntries es d
            from rfl, ih d]
      constructor
      · rintro ⟨h1, h2, h3⟩
        refine ⟨?_, ?_, ?_⟩
        · intro n
          cases n with
          | zero => simp [countRepeats, countStarts]
          | succ m =>
            have := h1 m
            simp only [List.take_succ_cons, countRepeats, countStarts] at this ⊢
            omega
        · simp only [countRepeats, countStarts]
          omega
        · rw [foreverFinal_cons]
          exact ⟨fun h => by simp at h, h3⟩
      · rintro ⟨h1, h2, h3⟩
        refine ⟨?_, ?_, ((foreverFinal_cons _ _).mp h3).2⟩
        · intro m
          have := h1 (m + 1)
          simp only [List.take_succ_cons, countRepeats, countStarts] at this
          omega
        · simp only [countRepeats, countStarts] at h2
          omega
    | loopForever =>
      rw [show validEntries (ChainEntry.loopForever :: es) d =
            (es.isEmpty && (d == 0)) from rfl]
      rw [Bool.and_eq_true, List.isEmpty_iff, beq_iff_eq]
      constructor
      · rintro ⟨rfl, rfl⟩
        refine ⟨?_, by simp [countRepeats, countStarts], ?_⟩
        · intro n
          cases n <;> simp [countRepeats, countStarts]
        · rw [foreverFinal_cons]
          exact ⟨fun _ => rfl, foreverFinal_nil⟩
      · rintro ⟨h1, h2, h3⟩
        have hes : es = [] := ((foreverFinal_cons _ _).mp h3).1 rfl
        subst hes
        simp only [countRepeats, countStarts] at h2
        exact ⟨rfl, by omega⟩

/-- C4: `waveChain` accepts a chain exactly when its decoded entries
balance loop starts against loop repeats (no initial segment closes
more loops than are open, and all opened loops are closed) with any
loop-forever entry final; in particular the chain
`[255,0, waveId, 255,1,5,0, 255,3]` validates successfully, while any
chain containing a loop repeat with no matching unclosed loop start
fails with `InvalidChainError` before any transmission starts. -/
theorem waveChain_validation :
    (∀ (s : WaveState) (chain : List Nat),
        waveChain s chain = Except.ok s ↔
          ∃ es, parseChain chain = some es ∧ BalancedNearest es ∧ ForeverFinal es) ∧
    (∀ (s : WaveState) (waveId : Nat), waveId ≠ 255 →
        waveChain s [255, 0, waveId, 255, 1, 5, 0, 255, 3] = Except.ok s) ∧
    (∀ (s : WaveState) (chain : List Nat) (es : List ChainEntry) (n : Nat),
        parseChain chain = some es →
        countStarts (es.take n) < countRepeats (es.take n) →
        waveChain s chain = Except.error Err.InvalidChainError) := by
  have hiff : ∀ es : List ChainEntry,
      validEntries es 0 = true ↔ (BalancedNearest es ∧ ForeverFinal es) := by
    intro es
    rw [validEntries_iff es 0]
    unfold BalancedNearest
    constructor
    · rintro ⟨h1, h2, h3⟩
      exact ⟨⟨fun n => by have := h1 n; omega, by omega⟩, h3⟩
    · rintro ⟨⟨h1, h2⟩, h3⟩
      exact ⟨fun n => by have := h1 n; omega, by omega, h3⟩
  refine ⟨?_, ?_, ?_⟩
  · intro s chain
    constructor
    · intro h
      simp only [waveChain] at h
      split at h
      · simp at h
      · rename_i es hp
        split at h
        · rename_i hv
          exact ⟨es, hp, (hiff es).mp hv⟩
        · simp at h
    · rintro ⟨es, hp, hb, hf⟩
      simp only [waveChain, hp]
      rw [if_pos ((hiff es).mpr ⟨hb, hf⟩)]
  · intro s waveId h
    have h5 : parseChain [255, 1, 5, 0, 255, 3] =
        some [ChainEntry.loopRepeat 5, ChainEntry.loopForever] := rfl
    have h4 : parseChain (waveId :: [255, 1, 5, 0, 255, 3]) =
        some (ChainEntry.waveId waveId ::
          [ChainEntry.loopRepeat 5, ChainEntry.loopForever]) := by
      rw [parseChain.eq_def]
      simp [h, h5]
    have h3 : parseChain (255 :: 0 :: waveId :: [255, 1, 5, 0, 255, 3]) =
        some (ChainEntry.loopStart :: ChainEntry.waveId waveId ::
          [ChainEntry.loopRepeat 5, ChainEntry.loopForever]) := by
      rw [parseChain.eq_def]
      simp [h4]
    simp only [waveChain, h3]
    rfl
  · intro s chain es n hp hviol
    have hnv : ¬ validEntries es 0 = true := by
      intro hv
      obtain ⟨h1, -, -⟩ := (validEntries_iff es 0).mp hv
      have := h1 n
      omega
    simp only [waveChain, hp]
    rw [if_neg hnv]

/-- Witness for C4: the concrete chain with wave id 7 validates
successfully. -/
theorem waveChain_validation_witness :
    (7 : Nat) ≠ 255 ∧
    waveChain baseState [255, 0, 7, 255, 1, 5, 0, 255, 3] = Except.ok baseState :=
  ⟨by decide, waveChain_validation.2.1 baseState 7 (by decide)⟩

lemma tick_countdown :
    ∀ (k : Nat) (s : WaveState) (j p : TxJob),
      s.tx = ⟨some j, some p⟩ → k < j.remaining →
      (tick^[k] s).tx = ⟨some { j with remaining := j.remaining - k }, some p⟩ := by
  intro k
  induction k with
  | zero =>
    intro s j p h hk
    simpa using h
  | succ m ih =>
    intro s j p h hk
    have ha : s.tx.active = some j := by rw [h]
    have hp : s.tx.pending = some p := by rw [h]
    have h2 : 1 < j.remaining := by omega
    have htick : (tick s).tx = ⟨some { j with remaining := j.remaining - 1 }, some p⟩ := by
      simp only [tick, ha]
      rw [if_pos h2]
      simp [hp]
    rw [Function.iterate_succ_apply]
    have hrec := ih (tick s) { j with remaining := j.remaining - 1 } p htick
      (by simp only []; omega)
    rw [hrec]
    have harith : j.remaining - 1 - m = j.remaining - (m + 1) := by omega
    simp [harith]

lemma tick_fires_pending (s : WaveState) (j p : TxJob)
    (h : s.tx = ⟨some j, some p⟩) (hr : j.remaining ≤ 1) :
    (tick s).tx = ⟨some { p with remaining := p.cycleMicros }, none⟩ := by
  have ha : s.tx.active = some j := by rw [h]
  have hp : s.tx.pending = some p := by rw [h]
  have h2 : ¬ 1 < j.remaining := by omega
  simp only [tick, ha]
  rw [if_neg h2]
  simp [hp]

/-- C5: a sync-mode transmit issued while another waveform is actively
transmitting with at least one microsecond left in its cycle queues
logically: for every instant strictly before that cycle completes the
reported current id (`waveTxAt`) is still the old waveform's id, and at
the cycle boundary the new waveform's id takes over. -/
theorem syncSend_defers :
    ∀ (s : WaveState) (jB : TxJob) (idA : Nat) (mA : WaveMode) (s' : WaveState),
      s.tx.active = some jB →
      1 ≤ jB.remaining →
      mA.isSync = true →
      waveTxSend s idA mA = Except.ok ((), s') →
      (∀ k, k < jB.remaining → waveTxAt (tick^[k] s') = some jB.id) ∧
      waveTxAt (tick^[jB.remaining] s') = some idA := by
  intro s jB idA mA s' ha hr hsync hsend
  simp only [waveTxSend] at hsend
  cases hl : lookupWave s idA with
  | none => rw [hl] at hsend; simp at hsend
  | some w =>
    have hcond : (mA.isSync && s.tx.active.isSome) = true := by
      rw [hsync, ha]; rfl
    rw [hl] at hsend
    simp only [hcond, if_true, Except.ok.injEq, Prod.mk.injEq, true_and] at hsend
    subst hsend
    have htx : ({ s with
        tx := { s.tx with pending := some ⟨idA, mA, w.micros, w.micros⟩ } }).tx =
        ⟨some jB, some ⟨idA, mA, w.micros, w.micros⟩⟩ := by
      simp [ha]
    constructor
    · intro k hk
      have hc := tick_countdown k _ jB ⟨idA, mA, w.micros, w.micros⟩ htx hk
      simp [waveTxAt, hc]
    · obtain ⟨m, hm⟩ : ∃ m, jB.remaining = m + 1 := ⟨jB.remaining - 1, by omega⟩
      rw [hm, Function.iterate_succ_apply']
      have hc := tick_countdown m _ jB ⟨idA, mA, w.micros, w.micros⟩ htx (by omega)
      have hfin : ({ jB with remaining := jB.remaining - m } : TxJob).remaining ≤ 1 := by
        simp only []
        omega
      have hfire := tick_fires_pending _ { jB with remaining := jB.remaining - m }
        ⟨idA, mA, w.micros, w.micros⟩ hc hfin
      simp [waveTxAt, hfire]

/-- Witness for C5: from `syncState` (waveform 0 repeating, two
microseconds left), a `repeatSync` send of waveform 1 yields
`syncQueued`; waveform 0 stays current for those two microseconds and
waveform 1 is current at the boundary. -/
theorem syncSend_defers_witness :
    syncState.tx.active = some ⟨0, WaveMode.repeatCycle, 4, 2⟩ ∧
    1 ≤ (⟨0, WaveMode.repeatCycle, 4, 2⟩ : TxJob).remaining ∧
    WaveMode.repeatSync.isSync = true ∧
    waveTxSend syncState 1 WaveMode.repeatSync = Except.ok ((), syncQueued) ∧
    ((∀ k, k < (⟨0, WaveMode.repeatCycle, 4, 2⟩ : TxJob).remaining →
        waveTxAt (tick^[k] syncQueued) =
          some (⟨0, WaveMode.repeatCycle, 4, 2⟩ : TxJob).id) ∧
      waveTxAt (tick^[(⟨0, WaveMode.repeatCycle, 4, 2⟩ : TxJob).remaining] syncQueued) =
        some 1) :=
  ⟨rfl, by decide, rfl, rfl,
    syncSend_defers syncState ⟨0, WaveMode.repeatCycle, 4, 2⟩ 1 WaveMode.repeatSync
      syncQueued rfl (by decide) rfl rfl⟩

/-- C6 counterexample: compiling `baseState`'s buffer (well under every
capacity limit) and immediately deleting the resulting waveform raises
the subsequently queried high-water mark from 0 to 5 microseconds, so
the compile-then-delete pair is not a no-op on the high-water marks. -/
theorem compileDelete_not_noop :
    (pulsesDuration baseState.buffer ≤ waveGetMaxMicros baseState ∧
     baseState.buffer.length ≤ waveGetMaxPulses baseState ∧
     (compileBlocks baseState.buffer).length ≤ waveGetMaxCbs baseState) ∧
    (waveCreate baseState).1 = Except.ok 1 ∧
    waveDelete (waveCreate baseState).2 1 = Except.ok cdFinal ∧
    waveGetHighMicros baseState = 0 ∧ waveGetHighMicros cdFinal = 5 :=
  ⟨by decide, rfl, rfl, by decide, by decide⟩

/-- C6 (amended): compiling then immediately deleting leaves each
high-water mark at the maximum of its prior value and the compiled
waveform's corresponding metric; in particular the pair is a no-op on
the marks whenever the compiled duration, pulse count and block count
do not exceed the prior marks (and a failed compile leaves the state,
marks included, entirely unchanged). -/
theorem compileDelete_marks :
    ∀ (s : WaveState) (waveId : Nat) (t u : WaveState),
      waveCreate s = (Except.ok waveId, t) →
      waveDelete t waveId = Except.ok u →
      (waveGetHighMicros u = max (waveGetHighMicros s) (pulsesDuration s.buffer) ∧
       waveGetHighPulses u = max (waveGetHighPulses s) s.buffer.length ∧
       waveGetHighCbs u = max (waveGetHighCbs s) (compileBlocks s.buffer).length) ∧
      (pulsesDuration s.buffer ≤ waveGetHighMicros s →
       s.buffer.length ≤ waveGetHighPulses s →
       (compileBlocks s.buffer).length ≤ waveGetHighCbs s →
       waveGetHighMicros u = waveGetHighMicros s ∧
       waveGetHighPulses u = waveGetHighPulses s ∧
       waveGetHighCbs u = waveGetHighCbs s) := by
  intro s waveId t u hc hd
  obtain ⟨-, ht, -⟩ := waveCreate_ok_inv hc
  have hu := waveDelete_ok_inv hd
  subst ht
  subst hu
  refine ⟨⟨rfl, rfl, rfl⟩, ?_⟩
  intro h1 h2 h3
  simp only [waveGetHighMicros, waveGetHighPulses, waveGetHighCbs] at h1 h2 h3 ⊢
  exact ⟨by omega, by omega, by omega⟩

/-- Witness for C6 (amended): from `richState`, whose marks dominate
its buffer's metrics, compile-then-delete leaves the marks exactly at
the stated maxima. -/
theorem compileDelete_marks_witness :
    waveCreate richState = (Except.ok 1, richAfter) ∧
    waveDelete richAfter 1 = Except.ok richFinal ∧
    ((waveGetHighMicros richFinal =
        max (waveGetHighMicros richState) (pulsesDuration richState.buffer) ∧
      waveGetHighPulses richFinal =
        max (waveGetHighPulses richState) richState.buffer.length ∧
      waveGetHighCbs richFinal =
        max (waveGetHighCbs richState) (compileBlocks richState.buffer).length) ∧
     (pulsesDuration richState.buffer ≤ waveGetHighMicros richState →
      richState.buffer.length ≤ waveGetHighPulses richState →
      (compileBlocks richState.buffer).length ≤ waveGetHighCbs richState →
      waveGetHighMicros richFinal = waveGetHighMicros richState ∧
      waveGetHighPulses richFinal = waveGetHighPulses richState ∧
      waveGetHighCbs richFinal = waveGetHighCbs richState)) :=
  ⟨rfl, rfl, compileDelete_marks richState 1 richAfter richFinal rfl rfl⟩

end Pigpio
